import Mathlib

/-!
Shallow embedding of `src/reader.py` (DarwinCoreReader).

Python dictionaries are modelled as association lists where the most recent
binding for a key comes first (`smapInsert` prepends, `smapFind` takes the
first match), which matches overwrite-on-assignment dictionary semantics.
Rows are lists of string fields; `row.getD i ""` models `row[i]` (all claims
access in-range fields, where the two agree).  Output-file writes are
modelled as a list of `(output class, written line)` pairs appended in
program order.  The `strip_author` configuration flag of
`CatalogueOfLifeProcessor` is `False` by default and not enabled by any
claim, so the embedding covers the default `strip_author=False` behaviour
of `get_name`.
-/

namespace DarwinCoreReader

/-- A Python `Dict[str, str]`: newest binding first. -/
abbrev SMap := List (String × String)

/-- `d[k] = v` on a string dictionary (overwrites any older binding). -/
def smapInsert (m : SMap) (k v : String) : SMap := (k, v) :: m

/-- Dictionary lookup returning the newest binding for `k`, if any. -/
def smapFind (m : SMap) (k : String) : Option String :=
  (m.find? (fun p => p.1 == k)).map Prod.snd

/-- Python `d.get(k, default)` on a string dictionary. -/
def smapGetD (m : SMap) (k d : String) : String := (smapFind m k).getD d

/-- The `accepted_name_taxon_mapping` dictionary: accepted-name-usage id
to the list of deferred `(name, taxon_id)` pairs. -/
abbrev PMap := List (String × List (String × String))

/-- `d[k] = v` (via `d.update({k: v})`) on the pending map. -/
def pmapInsert (m : PMap) (k : String) (v : List (String × String)) : PMap :=
  (k, v) :: m

/-- Python `d.get(k, default)` on the pending map. -/
def pmapGetD (m : PMap) (k : String) (d : List (String × String)) :
    List (String × String) :=
  ((m.find? (fun p => p.1 == k)).map Prod.snd).getD d

/-- Code points accepted by Python `str.isspace` (Unicode whitespace). -/
def pythonWhitespaceCodes : List Nat :=
  [9, 10, 11, 12, 13, 28, 29, 30, 31, 32, 133, 160, 5760,
   8192, 8193, 8194, 8195, 8196, 8197, 8198, 8199, 8200, 8201, 8202,
   8232, 8233, 8239, 8287, 12288]

/-- Whether `c` is whitespace in the sense of Python `str.isspace`. -/
def pyIsSpaceChar (c : Char) : Bool := pythonWhitespaceCodes.contains c.toNat

/-- The test `s == "" or s.isspace()` used by both taxon readers
(reader.py lines 188 and 270): all characters are whitespace,
vacuously true for the empty string. -/
def py_blank (s : String) : Bool := s.data.all pyIsSpaceChar

/-- `kingdom_class_map` (reader.py lines 11-22). -/
def kingdom_class_map : SMap :=
  [("Animalia", "Animal_Fauna"),
   ("Archaea", "Archaea"),
   ("Bacteria", "Bacteria"),
   ("Chromista", "Chromista"),
   ("Fungi", "Fungi"),
   ("Lichen", "Lichen"),
   ("Plantae", "Plant_Flora"),
   ("Protozoa", "Protozoa"),
   ("Taxon", "Taxon"),
   ("Viruses", "Viruses")]

/-- The inline classification expression
`kingdom_class_map.get(kingdom, "Taxon")` used at reader.py lines
198, 227, 280 and 334. -/
def classify (kingdom : String) : String :=
  smapGetD kingdom_class_map kingdom "Taxon"

/-- One part-extension step used by the splitter: prepend character `c`
to the first part of an already-split tail. -/
def headCons (c : Char) : List (List Char) → List (List Char)
  | [] => [[c]]
  | p :: ps => (c :: p) :: ps

/-- Leftmost greedy split of a character list on the regular-expression
pattern of `vernacular_name_sepearator` (reader.py line 37): a comma
optionally followed by one space, the optional space taken greedily. -/
def splitCommaChars : List Char → List (List Char)
  | [] => [[]]
  | [c] => if c = ',' then [[], []] else [[c]]
  | c :: d :: rest =>
    if c = ',' then
      if d = ' ' then [] :: splitCommaChars rest
      else [] :: splitCommaChars (d :: rest)
    else headCons c (splitCommaChars (d :: rest))

/-- `vernacular_name_sepearator.split(s)` (used at reader.py lines 226
and 333). -/
def vernacular_name_sepearator_split (s : String) : List String :=
  (splitCommaChars s.data).map (fun cs => String.mk cs)

/-- Join a list of parts with a separator (no trailing separator). -/
def joinChars (sep : List Char) : List (List Char) → List Char
  | [] => []
  | p :: ps =>
    match ps with
    | [] => p
    | _ :: _ => p ++ sep ++ joinChars sep ps

/-- Whether every comma in the character list is immediately followed by
a space, i.e. every separator occurrence takes its full two-character
form. -/
def commaSpaceOnly : List Char → Bool
  | [] => true
  | [c] => !(c == ',')
  | c :: d :: rest =>
    if c = ',' then (d == ' ') && commaSpaceOnly rest
    else commaSpaceOnly (d :: rest)

/-- Column indices located by `BackboneProcessor.process_taxon_header`
(reader.py lines 202-207). -/
structure BackboneTaxonIdx where
  taxon_id : Nat
  canonical_name_id : Nat
  kingdom_id : Nat
deriving DecidableEq

/-- `BackboneProcessor.process_taxon_header`: locate the zero-based
indices of the required columns by name in the header row. -/
def BackboneProcessor.process_taxon_header (header : List String) : BackboneTaxonIdx :=
  { taxon_id := List.indexOf "taxonID" header
    canonical_name_id := List.indexOf "canonicalName" header
    kingdom_id := List.indexOf "kingdom" header }

/-- Column indices located by `process_vernacular_names_header`
(reader.py lines 140-145 and 209-214, identical in both variants). -/
structure VernacularIdx where
  taxon_id : Nat
  language_id : Nat
  vernacular_name_id : Nat
deriving DecidableEq

/-- `process_vernacular_names_header`: locate the indices of the
`taxonID`, `language` and `vernacularName` columns. -/
def process_vernacular_names_header (header : List String) : VernacularIdx :=
  { taxon_id := List.indexOf "taxonID" header
    language_id := List.indexOf "language" header
    vernacular_name_id := List.indexOf "vernacularName" header }

/-- `BackboneProcessor.base_uri` (reader.py line 170). -/
def BackboneProcessor.base_uri : String := "https://www.gbif.org/species/"

/-- Mutable state of a `BackboneProcessor` run: the `id_kingdom_map`
dictionary plus the lines written so far to the taxon and vernacular
output files (as `(output class, line)` pairs in write order) and the
`filtered` / `all_count` tallies of the vernacular pass. -/
structure BackboneState where
  id_kingdom_map : SMap
  out_tx : List (String × String)
  out_vn : List (String × String)
  filtered : Nat
  all_count : Nat
deriving DecidableEq

/-- The empty initial state of a `BackboneProcessor` run. -/
def BackboneState.init : BackboneState :=
  { id_kingdom_map := [], out_tx := [], out_vn := [], filtered := 0, all_count := 0 }

/-- The loop body of `BackboneProcessor.read_taxon_tsv`
(reader.py lines 185-200) on one data row. -/
def BackboneProcessor.taxon_step (idx : BackboneTaxonIdx) (st : BackboneState)
    (row : List String) : BackboneState :=
  let taxon_id := row.getD idx.taxon_id ""
  let name := row.getD idx.canonical_name_id ""
  if py_blank name then st
  else
    let kingdom := row.getD idx.kingdom_id ""
    let clazz := classify kingdom
    { st with
      id_kingdom_map := smapInsert st.id_kingdom_map taxon_id kingdom
      out_tx := st.out_tx ++
        [(clazz, name ++ "\t" ++ BackboneProcessor.base_uri ++ taxon_id ++ "\n")] }

/-- `BackboneProcessor.read_taxon_tsv` (reader.py lines 182-200): process
the header row, then fold the loop body over the data rows. -/
def BackboneProcessor.read_taxon_tsv (header : List String)
    (rows : List (List String)) (st : BackboneState) : BackboneState :=
  rows.foldl (BackboneProcessor.taxon_step (BackboneProcessor.process_taxon_header header)) st

/-- The loop body of `BackboneProcessor.read_vernacular_names_tsv`
(reader.py lines 221-231) on one data row, given the configured
`filter_languages` set `fls`. -/
def BackboneProcessor.vernacular_step (fls : List String) (idx : VernacularIdx)
    (st : BackboneState) (row : List String) : BackboneState :=
  let taxon_id := row.getD idx.taxon_id ""
  let vernacular_name := row.getD idx.vernacular_name_id ""
  let lang := row.getD idx.language_id ""
  if fls.any (fun filter_lang => lang == filter_lang) then
    let clazz := classify (smapGetD st.id_kingdom_map taxon_id "")
    { st with
      out_vn := st.out_vn ++ (vernacular_name_sepearator_split vernacular_name).map
        (fun name => (clazz, name ++ "\t" ++ BackboneProcessor.base_uri ++ taxon_id ++ "\n"))
      all_count := st.all_count + 1 }
  else
    { st with filtered := st.filtered + 1, all_count := st.all_count + 1 }

/-- `BackboneProcessor.read_vernacular_names_tsv` (reader.py lines
216-233): process the header row, then fold the loop body over the data
rows. -/
def BackboneProcessor.read_vernacular_names_tsv (fls : List String)
    (header : List String) (rows : List (List String)) (st : BackboneState) :
    BackboneState :=
  rows.foldl (BackboneProcessor.vernacular_step fls (process_vernacular_names_header header)) st

/-- `CatalogueOfLifeProcessor.base_uri` (reader.py line 237). -/
def CatalogueOfLifeProcessor.base_uri : String :=
  "http://www.catalogueoflife.org/col/details/species/id/"

/-- Column indices located by `CatalogueOfLifeProcessor.process_taxon_header`
(reader.py lines 291-303). -/
structure ColTaxonIdx where
  taxon_id : Nat
  identifier_id : Nat
  accepted_name_usage_id : Nat
  scientific_name_id : Nat
  kingdom_id : Nat
  generic_name_id : Nat
  genus_id : Nat
  specific_epithet_id : Nat
  infraspecific_epithet_id : Nat
deriving DecidableEq

/-- `CatalogueOfLifeProcessor.process_taxon_header`: locate the indices
of all required columns (the `genus` column is located but never used by
`get_name`). -/
def CatalogueOfLifeProcessor.process_taxon_header (header : List String) : ColTaxonIdx :=
  { taxon_id := List.indexOf "taxonID" header
    identifier_id := List.indexOf "identifier" header
    accepted_name_usage_id := List.indexOf "acceptedNameUsageID" header
    scientific_name_id := List.indexOf "scientificName" header
    kingdom_id := List.indexOf "kingdom" header
    generic_name_id := List.indexOf "genericName" header
    genus_id := List.indexOf "genus" header
    specific_epithet_id := List.indexOf "specificEpithet" header
    infraspecific_epithet_id := List.indexOf "infraspecificEpithet" header }

/-- The `build_from_generic_name` configuration flag of
`CatalogueOfLifeProcessor` (the modelled `strip_author` flag is the
default `False`, see the file comment). -/
structure ColConfig where
  build_from_generic_name : Bool
deriving DecidableEq

/-- `CatalogueOfLifeProcessor.get_name` (reader.py lines 305-317) with
`strip_author=False`: either `" ".join([genericName, specificEpithet,
infraspecificEpithet])` or the `scientificName` field verbatim. -/
def CatalogueOfLifeProcessor.get_name (cfg : ColConfig) (idx : ColTaxonIdx)
    (row : List String) : String :=
  if cfg.build_from_generic_name then
    String.intercalate " "
      [row.getD idx.generic_name_id "",
       row.getD idx.specific_epithet_id "",
       row.getD idx.infraspecific_epithet_id ""]
  else
    row.getD idx.scientific_name_id ""

/-- Mutable state of a `CatalogueOfLifeProcessor` run: the three
dictionaries (`id_kingdom_map`, `taxon_id_identifier_mapping`,
`accepted_name_taxon_mapping`) plus the written output lines and the
vernacular-pass tallies. -/
structure ColState where
  id_kingdom_map : SMap
  taxon_id_identifier_mapping : SMap
  accepted_name_taxon_mapping : PMap
  out_tx : List (String × String)
  out_vn : List (String × String)
  filtered : Nat
  all_count : Nat
deriving DecidableEq

/-- The empty initial state of a `CatalogueOfLifeProcessor` run. -/
def ColState.init : ColState :=
  { id_kingdom_map := [], taxon_id_identifier_mapping := []
    accepted_name_taxon_mapping := [], out_tx := [], out_vn := []
    filtered := 0, all_count := 0 }

/-- The loop body of `CatalogueOfLifeProcessor.read_taxon_tsv`
(reader.py lines 263-289) on one data row: record
`taxon_id -> identifier`, skip blank or `"incertae sedis"` names, record
the kingdom, then either defer the row into
`accepted_name_taxon_mapping` (blank identifier) or write its line and
drain the deferred entries keyed by its own `taxon_id`. -/
def CatalogueOfLifeProcessor.taxon_step (cfg : ColConfig) (idx : ColTaxonIdx)
    (st : ColState) (row : List String) : ColState :=
  let taxon_id := row.getD idx.taxon_id ""
  let identifier := row.getD idx.identifier_id ""
  let accepted_name_usage := row.getD idx.accepted_name_usage_id ""
  let st1 := { st with taxon_id_identifier_mapping :=
                smapInsert st.taxon_id_identifier_mapping taxon_id identifier }
  let name := CatalogueOfLifeProcessor.get_name cfg idx row
  if py_blank name || name == "incertae sedis" then st1
  else
    let kingdom := row.getD idx.kingdom_id ""
    let st2 := { st1 with id_kingdom_map := smapInsert st1.id_kingdom_map taxon_id kingdom }
    let clazz := classify kingdom
    if py_blank identifier then
      let other_taxa := pmapGetD st2.accepted_name_taxon_mapping accepted_name_usage []
      { st2 with accepted_name_taxon_mapping :=
          (pmapInsert st2.accepted_name_taxon_mapping accepted_name_usage
            (other_taxa ++ [(name, taxon_id)])) }
    else
      let pending := pmapGetD st2.accepted_name_taxon_mapping taxon_id []
      { st2 with
        out_tx := (st2.out_tx ++
          [(clazz, name ++ "\t" ++ CatalogueOfLifeProcessor.base_uri ++ identifier ++ "\n")] ++
          pending.map (fun p =>
            (clazz, p.1 ++ "\t" ++ CatalogueOfLifeProcessor.base_uri ++ identifier ++ "\n")))
        taxon_id_identifier_mapping :=
          (pending.foldl (fun m p => smapInsert m p.2 identifier)
            st2.taxon_id_identifier_mapping) }

/-- `CatalogueOfLifeProcessor.read_taxon_tsv` (reader.py lines 260-289):
process the header row, then fold the loop body over the data rows. -/
def CatalogueOfLifeProcessor.read_taxon_tsv (cfg : ColConfig) (header : List String)
    (rows : List (List String)) (st : ColState) : ColState :=
  rows.foldl
    (CatalogueOfLifeProcessor.taxon_step cfg (CatalogueOfLifeProcessor.process_taxon_header header)) st

/-- The loop body of `CatalogueOfLifeProcessor.read_vernacular_names_tsv`
(reader.py lines 327-341) on one data row: the URI suffix is
`taxon_id_identifier_mapping.get(taxon_id, taxon_id)`. -/
def CatalogueOfLifeProcessor.vernacular_step (fls : List String) (idx : VernacularIdx)
    (st : ColState) (row : List String) : ColState :=
  let taxon_id := row.getD idx.taxon_id ""
  let identifier := smapGetD st.taxon_id_identifier_mapping taxon_id taxon_id
  let vernacular_name := row.getD idx.vernacular_name_id ""
  let lang := row.getD idx.language_id ""
  if fls.any (fun filter_lang => lang == filter_lang) then
    let clazz := classify (smapGetD st.id_kingdom_map taxon_id "")
    { st with
      out_vn := st.out_vn ++ (vernacular_name_sepearator_split vernacular_name).map
        (fun name => (clazz, name ++ "\t" ++ CatalogueOfLifeProcessor.base_uri ++ identifier ++ "\n"))
      all_count := st.all_count + 1 }
  else
    { st with filtered := st.filtered + 1, all_count := st.all_count + 1 }

/-- `CatalogueOfLifeProcessor.read_vernacular_names_tsv` (reader.py lines
322-343): process the header row, then fold the loop body over the data
rows. -/
def CatalogueOfLifeProcessor.read_vernacular_names_tsv (fls : List String)
    (header : List String) (rows : List (List String)) (st : ColState) : ColState :=
  rows.foldl
    (CatalogueOfLifeProcessor.vernacular_step fls (process_vernacular_names_header header)) st

/-- A Catalogue-of-Life taxon-table header containing all required
columns. -/
def colHeader : List String :=
  ["taxonID", "identifier", "acceptedNameUsageID", "scientificName",
   "kingdom", "genericName", "genus", "specificEpithet", "infraspecificEpithet"]

/-- The vernacular-table header used in the concrete scenarios. -/
def vernHeader : List String := ["taxonID", "language", "vernacularName"]

/-- Configuration taking the name from the `scientificName` column. -/
def cfgScientific : ColConfig := { build_from_generic_name := false }

/-- Configuration composing the name from `genericName` and the epithets. -/
def cfgComposed : ColConfig := { build_from_generic_name := true }

/-- Row A of claim C1: blank identifier, `acceptedNameUsageID = "T2"`. -/
def rowA : List String := ["T1", "", "T2", "NameA", "Plantae", "", "", "", ""]

/-- Row B of claim C1: `taxon_id = "T2"`, `identifier = "X1"`. -/
def rowB : List String := ["T2", "X1", "", "NameB", "Plantae", "", "", "", ""]

/-- An unresolved Catalogue-of-Life taxon row: `taxon_id = "T1"`, blank
identifier, never redirected. -/
def rowUnresolved : List String := ["T1", "", "", "NameU", "Plantae", "", "", "", ""]

/-- A vernacular row for taxon `"T1"` in an accepted language. -/
def rowVernacularT1 : List String := ["T1", "German", "Hund"]

/-- A row whose `genericName` and `genus` columns hold different values. -/
def rowGenus : List String := ["T9", "X9", "", "Sci", "Plantae", "GenericN", "GenusN", "sep", "isep"]

/-- The composed-name rule as claim C7 words it: the `genus` field and the
two epithet fields joined with single spaces (the source uses the
`genericName` field instead; this definition exists to be compared with
`CatalogueOfLifeProcessor.get_name`). -/
def composed_name_per_claim (idx : ColTaxonIdx) (row : List String) : String :=
  String.intercalate " "
    [row.getD idx.genus_id "",
     row.getD idx.specific_epithet_id "",
     row.getD idx.infraspecific_epithet_id ""]

/-- Claim C1: in the Catalogue-of-Life variant, with row A (blank
identifier, acceptedNameUsageID "T2") followed later by row B
(taxon_id "T2", identifier "X1", non-empty name), the taxon pass emits
both A's and B's names as lines with URI suffix "X1" and records
A's taxon_id "T1" as mapping to "X1" in the identifier mapping; with the
rows in reverse order, or with B absent, A's name is never emitted. -/
theorem C1_redirect_scenario :
    ((CatalogueOfLifeProcessor.read_taxon_tsv cfgScientific colHeader [rowA, rowB] ColState.init).out_tx =
      [("Plant_Flora", "NameB\t" ++ CatalogueOfLifeProcessor.base_uri ++ "X1" ++ "\n"),
       ("Plant_Flora", "NameA\t" ++ CatalogueOfLifeProcessor.base_uri ++ "X1" ++ "\n")] ∧
     smapGetD (CatalogueOfLifeProcessor.read_taxon_tsv cfgScientific colHeader [rowA, rowB]
        ColState.init).taxon_id_identifier_mapping "T1" "T1" = "X1") ∧
    (CatalogueOfLifeProcessor.read_taxon_tsv cfgScientific colHeader [rowB, rowA] ColState.init).out_tx =
      [("Plant_Flora", "NameB\t" ++ CatalogueOfLifeProcessor.base_uri ++ "X1" ++ "\n")] ∧
    (CatalogueOfLifeProcessor.read_taxon_tsv cfgScientific colHeader [rowA] ColState.init).out_tx = [] := by
  decide

/-- Claim C3: end-to-end backbone scenario with taxon row
`["1", "Plantae", "Rosa canina"]` and vernacular row
`["1", "de", "Hundsrose, Heckenrose"]` under filter language "de": one
taxon line and exactly two vernacular lines for class Plant_Flora, all
with URI suffix "1". -/
theorem C3_backbone_end_to_end :
    (BackboneProcessor.read_vernacular_names_tsv ["de"] vernHeader
        [["1", "de", "Hundsrose, Heckenrose"]]
        (BackboneProcessor.read_taxon_tsv ["taxonID", "kingdom", "canonicalName"]
          [["1", "Plantae", "Rosa canina"]] BackboneState.init)).out_tx =
      [("Plant_Flora", "Rosa canina\t" ++ BackboneProcessor.base_uri ++ "1" ++ "\n")] ∧
    (BackboneProcessor.read_vernacular_names_tsv ["de"] vernHeader
        [["1", "de", "Hundsrose, Heckenrose"]]
        (BackboneProcessor.read_taxon_tsv ["taxonID", "kingdom", "canonicalName"]
          [["1", "Plantae", "Rosa canina"]] BackboneState.init)).out_vn =
      [("Plant_Flora", "Hundsrose\t" ++ BackboneProcessor.base_uri ++ "1" ++ "\n"),
       ("Plant_Flora", "Heckenrose\t" ++ BackboneProcessor.base_uri ++ "1" ++ "\n")] := by
  decide

/-- Counterexample to claim C2: taxon "T1" appears in the taxon table
with a blank identifier and is never resolved to a non-empty external
identifier, yet the vernacular pass emits its line with the stored empty
identifier as URI suffix, not with the taxon identifier "T1" as the
claim asserts. -/
theorem C2_fallback_counterexample :
    smapFind (CatalogueOfLifeProcessor.read_taxon_tsv cfgScientific colHeader [rowUnresolved]
        ColState.init).taxon_id_identifier_mapping "T1" = some "" ∧
    (CatalogueOfLifeProcessor.read_vernacular_names_tsv ["German"] vernHeader [rowVernacularT1]
        (CatalogueOfLifeProcessor.read_taxon_tsv cfgScientific colHeader [rowUnresolved]
          ColState.init)).out_vn =
      [("Plant_Flora", "Hund\t" ++ CatalogueOfLifeProcessor.base_uri ++ "" ++ "\n")] ∧
    ("Plant_Flora", "Hund\t" ++ CatalogueOfLifeProcessor.base_uri ++ "T1" ++ "\n") ∉
      (CatalogueOfLifeProcessor.read_vernacular_names_tsv ["German"] vernHeader [rowVernacularT1]
        (CatalogueOfLifeProcessor.read_taxon_tsv cfgScientific colHeader [rowUnresolved]
          ColState.init)).out_vn := by
  decide

/-- Claim C2 (amended): in the Catalogue-of-Life vernacular pass, the
URI suffix falls back to the taxon identifier itself exactly when the
taxon identifier is absent from the identifier mapping (the taxon never
appeared in the taxon table); a taxon that appeared but was never
resolved uses its stored — possibly empty — identifier instead. -/
theorem C2_fallback_amended (fls : List String) (idx : VernacularIdx) (st : ColState)
    (row : List String)
    (habsent : smapFind st.taxon_id_identifier_mapping (row.getD idx.taxon_id "") = none)
    (hlang : fls.any (fun filter_lang => row.getD idx.language_id "" == filter_lang) = true) :
    (CatalogueOfLifeProcessor.vernacular_step fls idx st row).out_vn =
      st.out_vn ++ (vernacular_name_sepearator_split (row.getD idx.vernacular_name_id "")).map
        (fun name =>
          (classify (smapGetD st.id_kingdom_map (row.getD idx.taxon_id "") ""),
           name ++ "\t" ++ CatalogueOfLifeProcessor.base_uri ++ row.getD idx.taxon_id "" ++ "\n")) := by
  unfold CatalogueOfLifeProcessor.vernacular_step
  simp only [hlang, if_true, smapGetD, habsent, Option.getD_none]

/-- Concrete instance of the amended claim C2: a vernacular row for a
taxon absent from the identifier mapping is emitted with the taxon
identifier itself as URI suffix. -/
theorem C2_fallback_amended_witness :
    (CatalogueOfLifeProcessor.vernacular_step ["German"]
        (process_vernacular_names_header vernHeader) ColState.init
        ["T7", "German", "Hund"]).out_vn =
      [("Taxon", "Hund\t" ++ CatalogueOfLifeProcessor.base_uri ++ "T7" ++ "\n")] :=
  C2_fallback_amended ["German"] (process_vernacular_names_header vernHeader)
    ColState.init ["T7", "German", "Hund"] (by decide) (by decide)

/-- Counterexample to claim C7: on a row whose `genericName` column
("GenericN") differs from its `genus` column ("GenusN"), the extracted
composed name uses the `genericName` field, not the `genus` field the
claim names. -/
theorem C7_composed_name_counterexample :
    CatalogueOfLifeProcessor.get_name cfgComposed
        (CatalogueOfLifeProcessor.process_taxon_header colHeader) rowGenus = "GenericN sep isep" ∧
    composed_name_per_claim
        (CatalogueOfLifeProcessor.process_taxon_header colHeader) rowGenus = "GenusN sep isep" ∧
    CatalogueOfLifeProcessor.get_name cfgComposed
        (CatalogueOfLifeProcessor.process_taxon_header colHeader) rowGenus ≠
      composed_name_per_claim (CatalogueOfLifeProcessor.process_taxon_header colHeader) rowGenus := by
  decide

/-- Claim C7 (amended): with the composed name strategy enabled, the
extracted name equals the `genericName` field, the specific-epithet
field and the infraspecific-epithet field joined with single spaces,
empty fields kept as-is. -/
theorem C7_composed_name_amended (cfg : ColConfig) (idx : ColTaxonIdx) (row : List String)
    (h : cfg.build_from_generic_name = true) :
    CatalogueOfLifeProcessor.get_name cfg idx row =
      row.getD idx.generic_name_id "" ++ " " ++ row.getD idx.specific_epithet_id "" ++ " " ++
        row.getD idx.infraspecific_epithet_id "" := by
  unfold CatalogueOfLifeProcessor.get_name
  rw [h]
  simp only [if_true, String.intercalate, String.intercalate.go]

/-- Concrete instance of the amended claim C7. -/
theorem C7_composed_name_amended_witness :
    CatalogueOfLifeProcessor.get_name cfgComposed
        (CatalogueOfLifeProcessor.process_taxon_header colHeader) rowGenus =
      "GenericN" ++ " " ++ "sep" ++ " " ++ "isep" :=
  C7_composed_name_amended cfgComposed
    (CatalogueOfLifeProcessor.process_taxon_header colHeader) rowGenus rfl

/-- A key bound by no entry of a string dictionary is not found. -/
theorem smapFind_eq_none (m : SMap) (k : String) (h : ∀ p ∈ m, p.1 ≠ k) :
    smapFind m k = none := by
  unfold smapFind
  rw [List.find?_eq_none.mpr]
  · rfl
  · intro p hp
    simpa using h p hp

/-- Claim C4: the kingdom-to-class mapping is total: each of the ten
known kingdom strings maps to its documented class, and every other
string, including the empty string, maps to the default class
"Taxon". -/
theorem C4_classify_total :
    (classify "Animalia" = "Animal_Fauna" ∧ classify "Archaea" = "Archaea" ∧
     classify "Bacteria" = "Bacteria" ∧ classify "Chromista" = "Chromista" ∧
     classify "Fungi" = "Fungi" ∧ classify "Lichen" = "Lichen" ∧
     classify "Plantae" = "Plant_Flora" ∧ classify "Protozoa" = "Protozoa" ∧
     classify "Taxon" = "Taxon" ∧ classify "Viruses" = "Viruses") ∧
    ∀ s : String,
      s ∉ ["Animalia", "Archaea", "Bacteria", "Chromista", "Fungi",
           "Lichen", "Plantae", "Protozoa", "Taxon", "Viruses"] →
      classify s = "Taxon" := by
  refine ⟨by decide, ?_⟩
  intro s hs
  have hnone : smapFind kingdom_class_map s = none := by
    apply smapFind_eq_none
    intro p hp
    simp only [kingdom_class_map, List.mem_cons, List.not_mem_nil, or_false] at hp
    rcases hp with rfl | rfl | rfl | rfl | rfl | rfl | rfl | rfl | rfl | rfl <;>
      (intro hh; subst hh; exact hs (by decide))
  unfold classify smapGetD
  rw [hnone]
  rfl

/-- Concrete instances of the default case of claim C4: the empty
string and an unknown kingdom string map to the default class. -/
theorem C4_classify_total_witness :
    classify "" = "Taxon" ∧ classify "plantae" = "Taxon" :=
  ⟨C4_classify_total.2 "" (by decide), C4_classify_total.2 "plantae" (by decide)⟩

/-- The Catalogue-of-Life vernacular loop body leaves all three
dictionaries unchanged. -/
theorem col_vernacular_step_frame (fls : List String) (idx : VernacularIdx)
    (st : ColState) (row : List String) :
    (CatalogueOfLifeProcessor.vernacular_step fls idx st row).id_kingdom_map = st.id_kingdom_map ∧
    (CatalogueOfLifeProcessor.vernacular_step fls idx st row).taxon_id_identifier_mapping =
      st.taxon_id_identifier_mapping ∧
    (CatalogueOfLifeProcessor.vernacular_step fls idx st row).accepted_name_taxon_mapping =
      st.accepted_name_taxon_mapping := by
  simp only [CatalogueOfLifeProcessor.vernacular_step]
  split <;> exact ⟨rfl, rfl, rfl⟩

/-- The backbone vernacular loop body leaves `id_kingdom_map`
unchanged. -/
theorem backbone_vernacular_step_frame (fls : List String) (idx : VernacularIdx)
    (st : BackboneState) (row : List String) :
    (BackboneProcessor.vernacular_step fls idx st row).id_kingdom_map = st.id_kingdom_map := by
  simp only [BackboneProcessor.vernacular_step]
  split <;> rfl

/-- Claim C9: the vernacular pass never modifies the dictionaries: in
the Catalogue-of-Life variant `id_kingdom_map`,
`taxon_id_identifier_mapping` and `accepted_name_taxon_mapping` (and in
the backbone variant `id_kingdom_map`, the only one it has) are equal
after the vernacular pass to their contents at the end of the taxon
pass, for every filter-language set, header, row list and starting
state. -/
theorem C9_vernacular_pass_frame :
    (∀ (fls header : List String) (rows : List (List String)) (st : ColState),
        (CatalogueOfLifeProcessor.read_vernacular_names_tsv fls header rows st).id_kingdom_map =
          st.id_kingdom_map ∧
        (CatalogueOfLifeProcessor.read_vernacular_names_tsv fls header rows st).taxon_id_identifier_mapping =
          st.taxon_id_identifier_mapping ∧
        (CatalogueOfLifeProcessor.read_vernacular_names_tsv fls header rows st).accepted_name_taxon_mapping =
          st.accepted_name_taxon_mapping) ∧
    (∀ (fls header : List String) (rows : List (List String)) (st : BackboneState),
        (BackboneProcessor.read_vernacular_names_tsv fls header rows st).id_kingdom_map =
          st.id_kingdom_map) := by
  constructor
  · intro fls header rows
    unfold CatalogueOfLifeProcessor.read_vernacular_names_tsv
    induction rows with
    | nil => intro st; exact ⟨rfl, rfl, rfl⟩
    | cons row rows ih =>
      intro st
      simp only [List.foldl_cons]
      obtain ⟨h1, h2, h3⟩ :=
        ih (CatalogueOfLifeProcessor.vernacular_step fls (process_vernacular_names_header header) st row)
      obtain ⟨g1, g2, g3⟩ :=
        col_vernacular_step_frame fls (process_vernacular_names_header header) st row
      exact ⟨h1.trans g1, h2.trans g2, h3.trans g3⟩
  · intro fls header rows
    unfold BackboneProcessor.read_vernacular_names_tsv
    induction rows with
    | nil => intro st; rfl
    | cons row rows ih =>
      intro st
      simp only [List.foldl_cons]
      exact (ih (BackboneProcessor.vernacular_step fls (process_vernacular_names_header header) st row)).trans
        (backbone_vernacular_step_frame fls (process_vernacular_names_header header) st row)

/-- The lines the backbone vernacular loop body writes for one row,
expressed over a fixed kingdom map `km`: empty when the row's language
matches no filter language. -/
def backbone_vernacular_row_lines (fls : List String) (idx : VernacularIdx)
    (km : SMap) (row : List String) : List (String × String) :=
  if fls.any (fun filter_lang => row.getD idx.language_id "" == filter_lang) then
    (vernacular_name_sepearator_split (row.getD idx.vernacular_name_id "")).map
      (fun name =>
        (classify (smapGetD km (row.getD idx.taxon_id "") ""),
         name ++ "\t" ++ BackboneProcessor.base_uri ++ row.getD idx.taxon_id "" ++ "\n"))
  else []

/-- The lines the Catalogue-of-Life vernacular loop body writes for one
row, expressed over a fixed kingdom map `km` and identifier mapping
`tim`. -/
def col_vernacular_row_lines (fls : List String) (idx : VernacularIdx)
    (km tim : SMap) (row : List String) : List (String × String) :=
  if fls.any (fun filter_lang => row.getD idx.language_id "" == filter_lang) then
    (vernacular_name_sepearator_split (row.getD idx.vernacular_name_id "")).map
      (fun name =>
        (classify (smapGetD km (row.getD idx.taxon_id "") ""),
         name ++ "\t" ++ CatalogueOfLifeProcessor.base_uri ++
           smapGetD tim (row.getD idx.taxon_id "") (row.getD idx.taxon_id "") ++ "\n"))
  else []

/-- Characterization of the backbone vernacular loop: written lines,
filtered tally and total tally, by induction over the rows. -/
theorem backbone_vernacular_fold_spec (fls : List String) (idx : VernacularIdx)
    (rows : List (List String)) :
    ∀ (st : BackboneState) (km : SMap), st.id_kingdom_map = km →
      (rows.foldl (BackboneProcessor.vernacular_step fls idx) st).out_vn =
        st.out_vn ++ rows.flatMap (backbone_vernacular_row_lines fls idx km) ∧
      (rows.foldl (BackboneProcessor.vernacular_step fls idx) st).filtered =
        st.filtered + rows.countP (fun row =>
          !(fls.any (fun filter_lang => row.getD idx.language_id "" == filter_lang))) ∧
      (rows.foldl (BackboneProcessor.vernacular_step fls idx) st).all_count =
        st.all_count + rows.length := by
  induction rows with
  | nil => intro st km hkm; simp
  | cons row rows ih =>
    intro st km hkm
    simp only [List.foldl_cons, List.flatMap_cons, List.countP_cons, List.length_cons]
    by_cases h : (fls.any (fun filter_lang => row.getD idx.language_id "" == filter_lang)) = true
    · have hstep : BackboneProcessor.vernacular_step fls idx st row =
          { st with
            out_vn := st.out_vn ++ backbone_vernacular_row_lines fls idx km row
            all_count := st.all_count + 1 } := by
        simp only [BackboneProcessor.vernacular_step, backbone_vernacular_row_lines, h,
          if_true, hkm]
      rw [hstep]
      obtain ⟨h1, h2, h3⟩ := ih { st with
        out_vn := st.out_vn ++ backbone_vernacular_row_lines fls idx km row
        all_count := st.all_count + 1 } km hkm
      dsimp only at h1 h2 h3
      rw [h1, h2, h3]
      refine ⟨List.append_assoc _ _ _, ?_, by omega⟩
      rw [h]
      simp only [Bool.not_true]
      rw [if_neg Bool.false_ne_true, Nat.add_zero]
    · have hf : (fls.any (fun filter_lang => row.getD idx.language_id "" == filter_lang)) = false := by
        cases hx : (fls.any (fun filter_lang => row.getD idx.language_id "" == filter_lang))
        · rfl
        · exact absurd hx h
      have hstep : BackboneProcessor.vernacular_step fls idx st row =
          { st with filtered := st.filtered + 1, all_count := st.all_count + 1 } := by
        simp only [BackboneProcessor.vernacular_step]
        rw [if_neg h]
      rw [hstep]
      obtain ⟨h1, h2, h3⟩ := ih { st with
        filtered := st.filtered + 1, all_count := st.all_count + 1 } km hkm
      dsimp only at h1 h2 h3
      rw [h1, h2, h3]
      have hrow : backbone_vernacular_row_lines fls idx km row = [] := by
        simp only [backbone_vernacular_row_lines]
        rw [if_neg h]
      refine ⟨by rw [hrow, List.nil_append], ?_, by omega⟩
      rw [hf]
      simp only [Bool.not_false]
      rw [if_pos trivial]
      omega

/-- Characterization of the Catalogue-of-Life vernacular loop: written
lines, filtered tally and total tally, by induction over the rows. -/
theorem col_vernacular_fold_spec (fls : List String) (idx : VernacularIdx)
    (rows : List (List String)) :
    ∀ (st : ColState) (km tim : SMap),
      st.id_kingdom_map = km → st.taxon_id_identifier_mapping = tim →
      (rows.foldl (CatalogueOfLifeProcessor.vernacular_step fls idx) st).out_vn =
        st.out_vn ++ rows.flatMap (col_vernacular_row_lines fls idx km tim) ∧
      (rows.foldl (CatalogueOfLifeProcessor.vernacular_step fls idx) st).filtered =
        st.filtered + rows.countP (fun row =>
          !(fls.any (fun filter_lang => row.getD idx.language_id "" == filter_lang))) ∧
      (rows.foldl (CatalogueOfLifeProcessor.vernacular_step fls idx) st).all_count =
        st.all_count + rows.length := by
  induction rows with
  | nil => intro st km tim hkm htim; simp
  | cons row rows ih =>
    intro st km tim hkm htim
    simp only [List.foldl_cons, List.flatMap_cons, List.countP_cons, List.length_cons]
    by_cases h : (fls.any (fun filter_lang => row.getD idx.language_id "" == filter_lang)) = true
    · have hstep : CatalogueOfLifeProcessor.vernacular_step fls idx st row =
          { st with
            out_vn := st.out_vn ++ col_vernacular_row_lines fls idx km tim row
            all_count := st.all_count + 1 } := by
        simp only [CatalogueOfLifeProcessor.vernacular_step, col_vernacular_row_lines, h,
          if_true, hkm, htim]
      rw [hstep]
      obtain ⟨h1, h2, h3⟩ := ih { st with
        out_vn := st.out_vn ++ col_vernacular_row_lines fls idx km tim row
        all_count := st.all_count + 1 } km tim hkm htim
      dsimp only at h1 h2 h3
      rw [h1, h2, h3]
      refine ⟨List.append_assoc _ _ _, ?_, by omega⟩
      rw [h]
      simp only [Bool.not_true]
      rw [if_neg Bool.false_ne_true, Nat.add_zero]
    · have hf : (fls.any (fun filter_lang => row.getD idx.language_id "" == filter_lang)) = false := by
        cases hx : (fls.any (fun filter_lang => row.getD idx.language_id "" == filter_lang))
        · rfl
        · exact absurd hx h
      have hstep : CatalogueOfLifeProcessor.vernacular_step fls idx st row =
          { st with filtered := st.filtered + 1, all_count := st.all_count + 1 } := by
        simp only [CatalogueOfLifeProcessor.vernacular_step]
        rw [if_neg h]
      rw [hstep]
      obtain ⟨h1, h2, h3⟩ := ih { st with
        filtered := st.filtered + 1, all_count := st.all_count + 1 } km tim hkm htim
      dsimp only at h1 h2 h3
      rw [h1, h2, h3]
      have hrow : col_vernacular_row_lines fls idx km tim row = [] := by
        simp only [col_vernacular_row_lines]
        rw [if_neg h]
      refine ⟨by rw [hrow, List.nil_append], ?_, by omega⟩
      rw [hf]
      simp only [Bool.not_false]
      rw [if_pos trivial]
      omega

/-- Claim C5: in both variants, a vernacular row whose language exactly
matches some configured filter language contributes one output line per
split part of its name field, routed to the class obtained by kingdom
map lookup (defaulting to the unclassified class); a non-matching row
contributes nothing and is counted as filtered, so after the pass the
filtered tally equals the number of non-matching rows and the total
tally equals the number of data rows. -/
theorem C5_vernacular_rows :
    (∀ (fls header : List String) (rows : List (List String)) (st : BackboneState),
      (BackboneProcessor.read_vernacular_names_tsv fls header rows st).out_vn =
        st.out_vn ++ rows.flatMap
          (backbone_vernacular_row_lines fls (process_vernacular_names_header header)
            st.id_kingdom_map) ∧
      (BackboneProcessor.read_vernacular_names_tsv fls header rows st).filtered =
        st.filtered + rows.countP (fun row =>
          !(fls.any (fun filter_lang =>
            row.getD (process_vernacular_names_header header).language_id "" == filter_lang))) ∧
      (BackboneProcessor.read_vernacular_names_tsv fls header rows st).all_count =
        st.all_count + rows.length) ∧
    (∀ (fls header : List String) (rows : List (List String)) (st : ColState),
      (CatalogueOfLifeProcessor.read_vernacular_names_tsv fls header rows st).out_vn =
        st.out_vn ++ rows.flatMap
          (col_vernacular_row_lines fls (process_vernacular_names_header header)
            st.id_kingdom_map st.taxon_id_identifier_mapping) ∧
      (CatalogueOfLifeProcessor.read_vernacular_names_tsv fls header rows st).filtered =
        st.filtered + rows.countP (fun row =>
          !(fls.any (fun filter_lang =>
            row.getD (process_vernacular_names_header header).language_id "" == filter_lang))) ∧
      (CatalogueOfLifeProcessor.read_vernacular_names_tsv fls header rows st).all_count =
        st.all_count + rows.length) := by
  constructor
  · intro fls header rows st
    exact backbone_vernacular_fold_spec fls (process_vernacular_names_header header) rows st
      st.id_kingdom_map rfl
  · intro fls header rows st
    exact col_vernacular_fold_spec fls (process_vernacular_names_header header) rows st
      st.id_kingdom_map st.taxon_id_identifier_mapping rfl rfl

/-- Claim C6: a taxon row with a blank (empty or all-whitespace) name
produces no output line and no kingdom-map entry in either variant; a
row named exactly "incertae sedis" likewise produces nothing in the
Catalogue-of-Life variant; the backbone variant does not treat that
sentinel specially and processes such a row like any other. -/
theorem C6_blank_and_sentinel_names :
    (∀ (idx : BackboneTaxonIdx) (st : BackboneState) (row : List String),
        py_blank (row.getD idx.canonical_name_id "") = true →
        BackboneProcessor.taxon_step idx st row = st) ∧
    (∀ (cfg : ColConfig) (idx : ColTaxonIdx) (st : ColState) (row : List String),
        py_blank (CatalogueOfLifeProcessor.get_name cfg idx row) = true ∨
          CatalogueOfLifeProcessor.get_name cfg idx row = "incertae sedis" →
        (CatalogueOfLifeProcessor.taxon_step cfg idx st row).out_tx = st.out_tx ∧
        (CatalogueOfLifeProcessor.taxon_step cfg idx st row).id_kingdom_map = st.id_kingdom_map) ∧
    (∀ (idx : BackboneTaxonIdx) (st : BackboneState) (row : List String),
        row.getD idx.canonical_name_id "" = "incertae sedis" →
        (BackboneProcessor.taxon_step idx st row).out_tx =
          st.out_tx ++
            [(classify (row.getD idx.kingdom_id ""),
              "incertae sedis\t" ++ BackboneProcessor.base_uri ++ row.getD idx.taxon_id "" ++ "\n")] ∧
        (BackboneProcessor.taxon_step idx st row).id_kingdom_map =
          smapInsert st.id_kingdom_map (row.getD idx.taxon_id "") (row.getD idx.kingdom_id "")) := by
  refine ⟨?_, ?_, ?_⟩
  · intro idx st row h
    simp only [BackboneProcessor.taxon_step, h, if_true]
  · intro cfg idx st row h
    have hcond : (py_blank (CatalogueOfLifeProcessor.get_name cfg idx row) ||
        (CatalogueOfLifeProcessor.get_name cfg idx row == "incertae sedis")) = true := by
      rcases h with h | h
      · rw [h, Bool.true_or]
      · rw [h]
        simp
    simp only [CatalogueOfLifeProcessor.taxon_step, hcond, if_true]
    exact ⟨trivial, trivial⟩
  · intro idx st row h
    have hb : py_blank (row.getD idx.canonical_name_id "") = false := by
      rw [h]
      decide
    simp only [BackboneProcessor.taxon_step, hb, Bool.false_eq_true, if_false, h]
    exact ⟨rfl, rfl⟩

/-- Concrete instances of claim C6: a whitespace-named backbone row is a
no-op; a Catalogue-of-Life row named "incertae sedis" writes nothing and
records no kingdom; a backbone row named "incertae sedis" is written
out like any other row. -/
theorem C6_blank_and_sentinel_names_witness :
    BackboneProcessor.taxon_step (BackboneProcessor.process_taxon_header
        ["taxonID", "kingdom", "canonicalName"]) BackboneState.init ["1", "Plantae", " "] =
      BackboneState.init ∧
    (CatalogueOfLifeProcessor.taxon_step cfgScientific
        (CatalogueOfLifeProcessor.process_taxon_header colHeader) ColState.init
        ["T5", "X5", "", "incertae sedis", "Plantae", "", "", "", ""]).out_tx = [] ∧
    (CatalogueOfLifeProcessor.taxon_step cfgScientific
        (CatalogueOfLifeProcessor.process_taxon_header colHeader) ColState.init
        ["T5", "X5", "", "incertae sedis", "Plantae", "", "", "", ""]).id_kingdom_map = [] ∧
    (BackboneProcessor.taxon_step (BackboneProcessor.process_taxon_header
        ["taxonID", "kingdom", "canonicalName"]) BackboneState.init
        ["2", "Plantae", "incertae sedis"]).out_tx =
      [("Plant_Flora", "incertae sedis\t" ++ BackboneProcessor.base_uri ++ "2" ++ "\n")] := by
  refine ⟨?_, ?_, ?_⟩
  · exact C6_blank_and_sentinel_names.1 _ BackboneState.init _ (by decide)
  · exact ((C6_blank_and_sentinel_names.2.1 cfgScientific _ ColState.init _
      (Or.inr (by decide))).1).trans rfl
  constructor
  · exact ((C6_blank_and_sentinel_names.2.1 cfgScientific _ ColState.init _
      (Or.inr (by decide))).2).trans rfl
  · exact ((C6_blank_and_sentinel_names.2.2 _ BackboneState.init _ (by decide)).1).trans (by decide)

/-- The splitter always returns at least one part. -/
theorem splitCommaChars_ne_nil (l : List Char) : splitCommaChars l ≠ [] := by
  induction l using splitCommaChars.induct with
  | case1 => simp [splitCommaChars]
  | case2 => simp [splitCommaChars]
  | case3 c hc => simp [splitCommaChars, hc]
  | case4 rest ih => simp [splitCommaChars]
  | case5 d rest hd ih => simp [splitCommaChars, hd]
  | case6 c d rest hc ih =>
    simp only [splitCommaChars, if_neg hc]
    cases hsp : splitCommaChars (d :: rest) with
    | nil => exact absurd hsp ih
    | cons p ps => simp [headCons]

/-- Prepending a character to the first part commutes with joining. -/
theorem joinChars_headCons (sep : List Char) (c : Char) (L : List (List Char))
    (hL : L ≠ []) : joinChars sep (headCons c L) = c :: joinChars sep L := by
  match L with
  | [] => exact absurd rfl hL
  | [p] => rfl
  | p :: q :: ps => rfl

/-- Joining two leading parts. -/
theorem joinChars_cons_cons (sep x p : List Char) (ps : List (List Char)) :
    joinChars sep ((x ++ sep ++ p) :: ps) = x ++ sep ++ joinChars sep (p :: ps) := by
  cases ps with
  | nil => rfl
  | cons q qs =>
    show (x ++ sep ++ p) ++ sep ++ joinChars sep (q :: qs) =
      x ++ sep ++ (p ++ sep ++ joinChars sep (q :: qs))
    simp [List.append_assoc]

/-- Splitting on the separator pattern and rejoining with ", " restores
any character list in which every comma is followed by a space. -/
theorem joinChars_splitCommaChars (l : List Char) (h : commaSpaceOnly l = true) :
    joinChars [',', ' '] (splitCommaChars l) = l := by
  induction l using splitCommaChars.induct with
  | case1 => rfl
  | case2 => simp [commaSpaceOnly] at h
  | case3 c hc => simp [splitCommaChars, hc, joinChars]
  | case4 rest ih =>
    have h' : commaSpaceOnly rest = true := by
      simpa [commaSpaceOnly] using h
    have hsplit : splitCommaChars (',' :: ' ' :: rest) = [] :: splitCommaChars rest := by
      simp [splitCommaChars]
    rw [hsplit]
    cases hsp : splitCommaChars rest with
    | nil => exact absurd hsp (splitCommaChars_ne_nil rest)
    | cons p ps =>
      have : joinChars [',', ' '] ([] :: p :: ps) =
          ',' :: ' ' :: joinChars [',', ' '] (p :: ps) := rfl
      rw [this, ← hsp, ih h']
  | case5 d rest hd ih =>
    have : (d == ' ') = false := by
      simpa using hd
    simp [commaSpaceOnly, this] at h
  | case6 c d rest hc ih =>
    have h' : commaSpaceOnly (d :: rest) = true := by
      simpa [commaSpaceOnly, hc] using h
    simp only [splitCommaChars, if_neg hc]
    rw [joinChars_headCons _ _ _ (splitCommaChars_ne_nil _), ih h']

/-- `String.intercalate.go` over parts built from character lists. -/
theorem intercalate_go_joinChars (sep : String) (ps : List (List Char)) :
    ∀ acc : String, String.intercalate.go acc sep (ps.map (fun cs => String.mk cs)) =
      String.mk (joinChars sep.data (acc.data :: ps)) := by
  induction ps with
  | nil =>
    intro acc
    show acc = String.mk acc.data
    cases acc
    rfl
  | cons p ps ih =>
    intro acc
    show String.intercalate.go (acc ++ sep ++ String.mk p) sep
      (ps.map (fun cs => String.mk cs)) = String.mk (joinChars sep.data (acc.data :: p :: ps))
    rw [ih]
    have hdata : (acc ++ sep ++ String.mk p).data = acc.data ++ sep.data ++ p := by
      rw [String.data_append, String.data_append]
    rw [hdata, joinChars_cons_cons]
    rfl

/-- `String.intercalate` over parts built from character lists. -/
theorem intercalate_map_mk (sep : String) (ps : List (List Char)) (hps : ps ≠ []) :
    String.intercalate sep (ps.map (fun cs => String.mk cs)) =
      String.mk (joinChars sep.data ps) := by
  match ps with
  | [] => exact absurd rfl hps
  | p :: ps' =>
    show String.intercalate.go (String.mk p) sep (ps'.map (fun cs => String.mk cs)) = _
    rw [intercalate_go_joinChars]

/-- Counterexample to claim C8: the field "a, b,c" contains the
separator (both in its "comma space" and bare "comma" forms); splitting
it and rejoining the parts with either form of the separator fails to
reproduce the original field. -/
theorem C8_split_rejoin_counterexample :
    ',' ∈ ("a, b,c" : String).data ∧
    vernacular_name_sepearator_split "a, b,c" = ["a", "b", "c"] ∧
    String.intercalate ", " (vernacular_name_sepearator_split "a, b,c") ≠ "a, b,c" ∧
    String.intercalate "," (vernacular_name_sepearator_split "a, b,c") ≠ "a, b,c" := by
  decide

/-- Claim C8 (amended): for every vernacular-name field in which every
comma is immediately followed by a space (every separator occurrence
takes the full ", " form), splitting on the separator pattern and
rejoining the parts with ", " reproduces the original field exactly. -/
theorem C8_split_rejoin_amended (s : String) (h : commaSpaceOnly s.data = true) :
    String.intercalate ", " (vernacular_name_sepearator_split s) = s := by
  unfold vernacular_name_sepearator_split
  rw [intercalate_map_mk _ _ (splitCommaChars_ne_nil _)]
  have hsep : (", " : String).data = [',', ' '] := rfl
  rw [hsep, joinChars_splitCommaChars _ h]

/-- Concrete instance of the amended claim C8. -/
theorem C8_split_rejoin_amended_witness :
    String.intercalate ", " (vernacular_name_sepearator_split "Hundsrose, Heckenrose") =
      "Hundsrose, Heckenrose" :=
  C8_split_rejoin_amended "Hundsrose, Heckenrose" (by decide)

/-- After folding the drain's identifier inserts, every key that is
either among the drained taxon ids or already mapped to `v` looks up to
`v`. -/
theorem smapFind_foldl_insert (v : String) (qs : List (String × String)) (k : String) :
    ∀ m : SMap, (k ∈ qs.map Prod.snd ∨ smapFind m k = some v) →
      smapFind (qs.foldl (fun m q => smapInsert m q.2 v) m) k = some v := by
  induction qs with
  | nil =>
    intro m h
    rcases h with h | h
    · simp at h
    · simpa using h
  | cons q qs ih =>
    intro m h
    simp only [List.foldl_cons]
    apply ih
    rcases h with h | h
    · simp only [List.map_cons, List.mem_cons] at h
      rcases h with h | h
      · right
        subst h
        unfold smapFind smapInsert
        rw [List.find?_cons_of_pos _ (by simp)]
        rfl
      · left
        exact h
    · right
      by_cases hk : q.2 = k
      · subst hk
        unfold smapFind smapInsert
        rw [List.find?_cons_of_pos _ (by simp)]
        rfl
      · unfold smapFind at h
        unfold smapFind smapInsert
        rw [List.find?_cons_of_neg _ (by simp [hk])]
        exact h

/-- Claim C10: when a Catalogue-of-Life taxon row with a usable name and
a non-blank identifier is processed, its own line and one line per
pending entry keyed by its taxon id are written, all to the output class
derived from the resolving row's kingdom (pending entries carry no
kingdom of their own), and every drained taxon id is afterwards mapped
to the resolving row's identifier. -/
theorem C10_drain_semantics (cfg : ColConfig) (idx : ColTaxonIdx) (st : ColState)
    (row : List String)
    (hname : py_blank (CatalogueOfLifeProcessor.get_name cfg idx row) = false)
    (hsent : CatalogueOfLifeProcessor.get_name cfg idx row ≠ "incertae sedis")
    (hident : py_blank (row.getD idx.identifier_id "") = false) :
    (CatalogueOfLifeProcessor.taxon_step cfg idx st row).out_tx =
      st.out_tx ++
        [(classify (row.getD idx.kingdom_id ""),
          CatalogueOfLifeProcessor.get_name cfg idx row ++ "\t" ++
            CatalogueOfLifeProcessor.base_uri ++ row.getD idx.identifier_id "" ++ "\n")] ++
        (pmapGetD st.accepted_name_taxon_mapping (row.getD idx.taxon_id "") []).map
          (fun p => (classify (row.getD idx.kingdom_id ""),
            p.1 ++ "\t" ++ CatalogueOfLifeProcessor.base_uri ++
              row.getD idx.identifier_id "" ++ "\n")) ∧
    ∀ p ∈ pmapGetD st.accepted_name_taxon_mapping (row.getD idx.taxon_id "") [],
      smapFind (CatalogueOfLifeProcessor.taxon_step cfg idx st row).taxon_id_identifier_mapping
        p.2 = some (row.getD idx.identifier_id "") := by
  have hbeq : (CatalogueOfLifeProcessor.get_name cfg idx row == "incertae sedis") = false :=
    beq_eq_false_iff_ne.mpr hsent
  simp only [CatalogueOfLifeProcessor.taxon_step, hname, hbeq, Bool.or_self,
    Bool.false_eq_true, if_false, hident]
  constructor
  · trivial
  · intro p hp
    apply smapFind_foldl_insert
    left
    exact List.mem_map_of_mem Prod.snd hp

/-- A Catalogue-of-Life state holding one pending entry for taxon "T2"
whose deferred row was recorded under a different kingdom ("Animalia")
than the resolving row rowB carries ("Plantae"). -/
def stPending : ColState :=
  { id_kingdom_map := [("T0", "Animalia")]
    taxon_id_identifier_mapping := [("T0", "")]
    accepted_name_taxon_mapping := [("T2", [("OldName", "T0")])]
    out_tx := [], out_vn := [], filtered := 0, all_count := 0 }

/-- Concrete instance of claim C10: draining through rowB writes the
deferred name under rowB's class Plant_Flora (although the deferred
taxon "T0" was recorded with kingdom Animalia) and remaps "T0" to
"X1". -/
theorem C10_drain_semantics_witness :
    (CatalogueOfLifeProcessor.taxon_step cfgScientific
        (CatalogueOfLifeProcessor.process_taxon_header colHeader) stPending rowB).out_tx =
      [("Plant_Flora", "NameB\t" ++ CatalogueOfLifeProcessor.base_uri ++ "X1" ++ "\n"),
       ("Plant_Flora", "OldName\t" ++ CatalogueOfLifeProcessor.base_uri ++ "X1" ++ "\n")] ∧
    smapFind (CatalogueOfLifeProcessor.taxon_step cfgScientific
        (CatalogueOfLifeProcessor.process_taxon_header colHeader)
        stPending rowB).taxon_id_identifier_mapping "T0" = some "X1" := by
  have h := C10_drain_semantics cfgScientific
    (CatalogueOfLifeProcessor.process_taxon_header colHeader) stPending rowB
    (by decide) (by decide) (by decide)
  exact ⟨h.1.trans (by decide), h.2 ("OldName", "T0") (by decide)⟩

end DarwinCoreReader
